import Mathlib

/-!
Verification of the OpenTouch-Remote core against its specification.

The Python source (src/input_handler.py, src/server.py, src/capture_engine.py,
src/config.py) is shallowly embedded below.  Python floats are modelled as
rationals, Python ints as `Int`/`Nat`, dictionaries as insertion-ordered
association lists, and calls into the injection sink (pynput controllers) as
emitted `SinkCmd` values.
-/

namespace OpenTouch

/-! ## Injection-sink vocabulary (pynput mouse/keyboard) -/

/-- pynput `mouse.Button`. -/
inductive Button
  | left
  | right
  | middle
deriving DecidableEq, Repr

/-- pynput keys: `keyboard.Key` members used in `_parse_key`'s table, plus
`keyboard.KeyCode.from_char` for single printable characters. -/
inductive Key
  | enter | tab | esc | backspace | delete | space
  | up | down | left | right
  | home | end_ | page_up | page_down | insert_
  | shift | shift_l | shift_r
  | ctrl | ctrl_l | ctrl_r
  | alt | alt_l | alt_r
  | cmd | cmd_l | cmd_r
  | win_cmd
  | caps_lock
  | f1 | f2 | f3 | f4 | f5 | f6 | f7 | f8 | f9 | f10 | f11 | f12
  | char (c : Char)
deriving DecidableEq, Repr

/-- Discrete commands forwarded to the injection sink.  Each constructor
corresponds to one call on the pynput mouse/keyboard controllers. -/
inductive SinkCmd
  | moveTo (x y : Int)
  | press (b : Button)
  | release (b : Button)
  | click (b : Button) (count : Int)
  | scroll (dx : ℚ) (units : Int)
  | keyPress (k : Key)
  | keyRelease (k : Key)
  | keyTap (c : Char)
deriving DecidableEq, Repr

/-! ## Python-dict association lists -/

/-- `d.get(k, False)` on a Python `Dict[str, bool]`. -/
def dictGet (d : List (String × Bool)) (k : String) : Bool :=
  match d.find? (fun p => p.1 == k) with
  | some p => p.2
  | none => false

/-- `d[k] = v` on a Python dict: update in place if present, else append
(preserving insertion order). -/
def dictSet (d : List (String × Bool)) (k : String) (v : Bool) :
    List (String × Bool) :=
  if d.any (fun p => p.1 == k) then
    d.map (fun p => if p.1 == k then (k, v) else p)
  else
    d ++ [(k, v)]

/-! ## `InputHandler` (src/input_handler.py) -/

/-- Python `int()` applied to a float: truncation toward zero. -/
def pyTrunc (q : ℚ) : Int :=
  if 0 ≤ q then ⌊q⌋ else ⌈q⌉

/-- The mutable state of `InputHandler`: desktop dimensions, the pressed
state of mouse buttons and keyboard keys.  (The lock, rate limiter and the
pynput controller objects carry no event-visible state.) -/
structure InputState where
  desktopWidth : Int
  desktopHeight : Int
  buttonState : List (String × Bool)
  keyState : List (String × Bool)
deriving DecidableEq, Repr

/-- `InputHandler.__init__`: desktop defaults 1920x1080, three buttons
initially released, no key state. -/
def initInput : InputState :=
  { desktopWidth := 1920
    desktopHeight := 1080
    buttonState := [("left", false), ("right", false), ("middle", false)]
    keyState := [] }

/-- `InputHandler.set_desktop_size`. -/
def setDesktopSize (s : InputState) (w h : Int) : InputState :=
  { s with desktopWidth := w, desktopHeight := h }

/-- `InputHandler._get_button`: dictionary lookup with default
`mouse.Button.left`. -/
def getButton (name : String) : Button :=
  if name = "left" then Button.left
  else if name = "right" then Button.right
  else if name = "middle" then Button.middle
  else Button.left

/-- `InputHandler._transform_coordinates`: linear map from client to desktop
coordinates, truncated by `int()` and clamped to `[0, dim - 1]`. -/
def transformCoordinates (s : InputState) (x y : ℚ)
    (clientWidth clientHeight : Int) : Int × Int :=
  let pcX := pyTrunc ((x / (clientWidth : ℚ)) * (s.desktopWidth : ℚ))
  let pcY := pyTrunc ((y / (clientHeight : ℚ)) * (s.desktopHeight : ℚ))
  (max 0 (min pcX (s.desktopWidth - 1)), max 0 (min pcY (s.desktopHeight - 1)))

/-- `InputHandler._handle_move`. -/
def handleMove (s : InputState) (x y : ℚ) (clientWidth clientHeight : Int) :
    InputState × List SinkCmd :=
  let pc := transformCoordinates s x y clientWidth clientHeight
  (s, [SinkCmd.moveTo pc.1 pc.2])

/-- `InputHandler._handle_click`. -/
def handleClick (s : InputState) (buttonName : String) (count : Int) :
    InputState × List SinkCmd :=
  (s, [SinkCmd.click (getButton buttonName) count])

/-- `InputHandler._handle_mousedown`: forward a press only when the button is
not currently marked pressed, then mark it pressed. -/
def handleMousedown (s : InputState) (buttonName : String) :
    InputState × List SinkCmd :=
  if dictGet s.buttonState buttonName = false then
    ({ s with buttonState := dictSet s.buttonState buttonName true },
      [SinkCmd.press (getButton buttonName)])
  else
    (s, [])

/-- `InputHandler._handle_mouseup`: forward a release only when the button is
currently marked pressed, then mark it released. -/
def handleMouseup (s : InputState) (buttonName : String) :
    InputState × List SinkCmd :=
  if dictGet s.buttonState buttonName = true then
    ({ s with buttonState := dictSet s.buttonState buttonName false },
      [SinkCmd.release (getButton buttonName)])
  else
    (s, [])

/-- `InputHandler._handle_scroll`: `scroll_units = int(dy * 2)`, `dx` is
forwarded unscaled. -/
def handleScroll (s : InputState) (dx dy : ℚ) : InputState × List SinkCmd :=
  (s, [SinkCmd.scroll dx (pyTrunc (dy * 2))])

/-- `InputHandler._parse_key`'s `special_keys` table. -/
def specialKeys (k : String) : Option Key :=
  match k with
  | "enter" => some Key.enter
  | "tab" => some Key.tab
  | "escape" => some Key.esc
  | "esc" => some Key.esc
  | "backspace" => some Key.backspace
  | "delete" => some Key.delete
  | "space" => some Key.space
  | "arrow_up" => some Key.up
  | "arrow_down" => some Key.down
  | "arrow_left" => some Key.left
  | "arrow_right" => some Key.right
  | "up" => some Key.up
  | "down" => some Key.down
  | "left" => some Key.left
  | "right" => some Key.right
  | "home" => some Key.home
  | "end" => some Key.end_
  | "page_up" => some Key.page_up
  | "page_down" => some Key.page_down
  | "insert" => some Key.insert_
  | "shift" => some Key.shift
  | "shift_l" => some Key.shift_l
  | "shift_r" => some Key.shift_r
  | "ctrl" => some Key.ctrl
  | "ctrl_l" => some Key.ctrl_l
  | "ctrl_r" => some Key.ctrl_r
  | "alt" => some Key.alt
  | "alt_l" => some Key.alt_l
  | "alt_r" => some Key.alt_r
  | "cmd" => some Key.cmd
  | "cmd_l" => some Key.cmd_l
  | "cmd_r" => some Key.cmd_r
  | "win" => some Key.win_cmd
  | "caps_lock" => some Key.caps_lock
  | "f1" => some Key.f1
  | "f2" => some Key.f2
  | "f3" => some Key.f3
  | "f4" => some Key.f4
  | "f5" => some Key.f5
  | "f6" => some Key.f6
  | "f7" => some Key.f7
  | "f8" => some Key.f8
  | "f9" => some Key.f9
  | "f10" => some Key.f10
  | "f11" => some Key.f11
  | "f12" => some Key.f12
  | _ => none

/-- `InputHandler._parse_key`: lower-case and replace spaces, look up the
table; otherwise a single character maps through `KeyCode.from_char`;
anything else is unresolvable (`None`). -/
def parseKey (key : String) : Option Key :=
  let keyLower := (key.toLower).replace " " "_"
  match specialKeys keyLower with
  | some k => some k
  | none =>
    if key.length = 1 then some (Key.char key.front) else none

/-- `InputHandler._handle_keydown`: a parseable key not currently marked
pressed is pressed on the sink and marked pressed. -/
def handleKeydown (s : InputState) (key : String) : InputState × List SinkCmd :=
  if key = "" then (s, [])
  else
    match parseKey key with
    | some kobj =>
      if dictGet s.keyState key = false then
        ({ s with keyState := dictSet s.keyState key true },
          [SinkCmd.keyPress kobj])
      else (s, [])
    | none => (s, [])

/-- `InputHandler._handle_keyup`: a parseable key currently marked pressed is
released on the sink and marked released. -/
def handleKeyup (s : InputState) (key : String) : InputState × List SinkCmd :=
  if key = "" then (s, [])
  else
    match parseKey key with
    | some kobj =>
      if dictGet s.keyState key = true then
        ({ s with keyState := dictSet s.keyState key false },
          [SinkCmd.keyRelease kobj])
      else (s, [])
    | none => (s, [])

/-- `InputHandler._handle_keypress`: tap for single characters only; no state
change. -/
def handleKeypress (s : InputState) (key : String) : InputState × List SinkCmd :=
  if key = "" then (s, [])
  else if key.length = 1 then (s, [SinkCmd.keyTap key.front])
  else (s, [])

/-- `InputHandler.release_all`: release every currently-pressed button and
every currently-pressed parseable key, and mark everything released. -/
def releaseAll (s : InputState) : InputState × List SinkCmd :=
  let buttonCmds := s.buttonState.filterMap (fun p =>
    if p.2 then some (SinkCmd.release (getButton p.1)) else none)
  let newButtons := s.buttonState.map (fun p => if p.2 then (p.1, false) else p)
  let keyCmds := s.keyState.filterMap (fun p =>
    if p.2 then
      match parseKey p.1 with
      | some kobj => some (SinkCmd.keyRelease kobj)
      | none => none
    else none)
  let newKeys := s.keyState.map (fun p => if p.2 then (p.1, false) else p)
  ({ s with buttonState := newButtons, keyState := newKeys },
    buttonCmds ++ keyCmds)

/-- States of `InputHandler` reachable from construction through its event
handlers (the only code that mutates `button_state`/`key_state`). -/
inductive InputReachable : InputState → Prop
  | init : InputReachable initInput
  | set_size (s w h) : InputReachable s → InputReachable (setDesktopSize s w h)
  | move (s x y cw ch) : InputReachable s → InputReachable (handleMove s x y cw ch).1
  | click (s n c) : InputReachable s → InputReachable (handleClick s n c).1
  | mousedown (s n) : InputReachable s → InputReachable (handleMousedown s n).1
  | mouseup (s n) : InputReachable s → InputReachable (handleMouseup s n).1
  | scroll (s dx dy) : InputReachable s → InputReachable (handleScroll s dx dy).1
  | keydown (s k) : InputReachable s → InputReachable (handleKeydown s k).1
  | keyup (s k) : InputReachable s → InputReachable (handleKeyup s k).1
  | keypress (s k) : InputReachable s → InputReachable (handleKeypress s k).1
  | release_every (s) : InputReachable s → InputReachable (releaseAll s).1

/-! ## `QualityController` (src/server.py) -/

/-- `QualityController.max_samples`. -/
def maxSamples : ℕ := 10

/-- `QualityController.min_quality` (0.4). -/
def minQuality : ℚ := 2/5

/-- `QualityController.max_quality` (1.0). -/
def maxQuality : ℚ := 1

/-- `QualityController.low_latency_threshold` (50 ms). -/
def lowLatencyThreshold : ℚ := 50

/-- `QualityController.high_latency_threshold` (200 ms). -/
def highLatencyThreshold : ℚ := 200

/-- The mutable state of `QualityController`: the base quality given at
construction, the committed current quality, and the bounded latency
window. -/
structure QC where
  base_quality : ℚ
  current_quality : ℚ
  latency_samples : List ℚ
deriving DecidableEq, Repr

/-- `QualityController.__init__`. -/
def QC.init (baseQuality : ℚ) : QC :=
  { base_quality := baseQuality
    current_quality := baseQuality
    latency_samples := [] }

/-- `QualityController._adjust_quality`, applied to the updated window:
no-op below 3 samples; otherwise compute the mean, pick the target by the
latency thresholds, and commit it only if it differs from the current quality
by more than 0.05 (hysteresis). -/
def adjustQuality (base current : ℚ) (samples : List ℚ) : ℚ :=
  if samples.length < 3 then current
  else
    let avgLatency := samples.sum / (samples.length : ℚ)
    let target :=
      if avgLatency < lowLatencyThreshold then min (base + 1/10) maxQuality
      else if avgLatency > highLatencyThreshold then max (base - 1/5) minQuality
      else base
    if |target - current| > 1/20 then target else current

/-- `QualityController.record_latency`: append the sample, evict the oldest
when past `max_samples`, then adjust the quality. -/
def QC.record_latency (qc : QC) (latencyMs : ℚ) : QC :=
  let appended := qc.latency_samples ++ [latencyMs]
  let window := if appended.length > maxSamples then appended.drop 1 else appended
  { qc with
    latency_samples := window
    current_quality := adjustQuality qc.base_quality qc.current_quality window }

/-- `QualityController.get_quality`. -/
def QC.get_quality (qc : QC) : ℚ :=
  qc.current_quality

/-- States of a `QualityController` constructed with base quality `b` and
driven by any sequence of `record_latency` calls. -/
inductive QCReachable (b : ℚ) : QC → Prop
  | init : QCReachable b (QC.init b)
  | record (qc ms) : QCReachable b qc → QCReachable b (qc.record_latency ms)

/-! ## `CaptureEngine` quality cache and the `pong` handler
(src/capture_engine.py, src/server.py) -/

/-- `CaptureEngine.set_quality`: clamp `int(quality * 100)` to `[30, 100]`. -/
def setQualityPercent (quality : ℚ) : Int :=
  max 30 (min 100 (pyTrunc (quality * 100)))

/-- The state touched by the server's `pong` handler: the quality controller
and the capture engine's cached `current_jpeg_quality` percentage. -/
structure PongState where
  qc : QC
  currentJpegQuality : Int
deriving DecidableEq, Repr

/-- Server construction: `QualityController(config.jpeg_quality)` and
`CaptureEngine.__init__` caching `int(config.jpeg_quality * 100)` (no
clamping at construction). -/
def PongState.init (baseQuality : ℚ) : PongState :=
  { qc := QC.init baseQuality
    currentJpegQuality := pyTrunc (baseQuality * 100) }

/-- The server's `pong` handler, for one measured latency: record the sample,
then propagate the (possibly new) quality to the capture engine only when it
differs from the cached percentage by more than 0.05. -/
def pongStep (st : PongState) (latencyMs : ℚ) : PongState :=
  let qc := st.qc.record_latency latencyMs
  let currentQuality := qc.get_quality
  if |currentQuality - (st.currentJpegQuality : ℚ) / 100| > 1/20 then
    { qc := qc, currentJpegQuality := setQualityPercent currentQuality }
  else
    { qc := qc, currentJpegQuality := st.currentJpegQuality }

/-- A run of `pong` events from server construction. -/
def pongRun (baseQuality : ℚ) (latencies : List ℚ) : PongState :=
  latencies.foldl pongStep (PongState.init baseQuality)

/-! ## `CaptureEngine` capture loop with change detection
(src/capture_engine.py) -/

/-- A raw frame: a flat list of pixel channel values (numpy array). -/
def Frame := List Int
deriving DecidableEq, Repr

/-- `CaptureEngine._frames_identical`: shapes must match, then the mean
absolute pixel difference normalised by 255 is compared with the 0.02
threshold.  (`np.mean` of an empty array is NaN and `NaN < t` is false, hence
the emptiness guard.) -/
def framesIdentical (f1 f2 : Frame) : Bool :=
  if f1.length ≠ f2.length then false
  else if f1.length = 0 then false
  else
    decide ((((((f1.zip f2).map (fun p => |p.1 - p.2|)).sum : ℤ) : ℚ)
      / (f1.length : ℚ)) / 255 < 1/50)

/-- One iteration of `CaptureEngine._capture_loop` for a captured raw frame,
with `skip_identical_frames` enabled and encoding succeeding (the scenario's
hypotheses): if the frame is identical to the baseline, bump the
consecutive-skip counter and skip while it stays below 5; an emitted frame
resets the counter to 0 and becomes the new baseline.  Returns the new
baseline, the new counter, and whether the frame was emitted via the
callback. -/
def captureStep (lastFrame : Option Frame) (consecutiveIdentical : ℕ)
    (frame : Frame) : Option Frame × ℕ × Bool :=
  match lastFrame with
  | some lf =>
    if framesIdentical frame lf then
      let bumped := consecutiveIdentical + 1
      if bumped < 5 then (some lf, bumped, false)
      else (some frame, 0, true)
    else (some frame, 0, true)
  | none => (some frame, 0, true)

/-- Feed a list of raw frames through the capture loop, recording for each
frame whether it was emitted and the skip counter right after it was
processed. -/
def runCapture (lastFrame : Option Frame) (consecutiveIdentical : ℕ) :
    List Frame → List (Bool × ℕ)
  | [] => []
  | f :: fs =>
    let r := captureStep lastFrame consecutiveIdentical f
    (r.2.2, r.2.1) :: runCapture r.1 r.2.1 fs

/-! ## Server connect/disconnect handlers (src/server.py) -/

/-- Side effects of the socket handlers that matter to the claims. -/
inductive ServerAction
  | startCapture
  | stopCapture
  | callReleaseAll
deriving DecidableEq, Repr

/-- Server state relevant to session lifecycle: the connected-client ids in
insertion order and whether the capture engine is running
(`CaptureEngine.running`). -/
structure ServerState where
  connectedClients : List String
  engineRunning : Bool
deriving DecidableEq, Repr

/-- Server construction: no clients, capture engine not running. -/
def initServer : ServerState :=
  { connectedClients := [], engineRunning := false }

/-- The `connect` handler: register the client; when it is the only one,
invoke `capture_engine.start` (which is a no-op when already running, and
otherwise sets `running`). -/
def connectStep (st : ServerState) (sid : String) :
    ServerState × List ServerAction :=
  let clients := st.connectedClients ++ [sid]
  if clients.length = 1 then
    ({ connectedClients := clients, engineRunning := true },
      [ServerAction.startCapture])
  else
    ({ connectedClients := clients, engineRunning := st.engineRunning }, [])

/-- The `disconnect` handler: deregister the client; when no clients remain,
invoke `capture_engine.stop` and `input_handler.release_all`. -/
def disconnectStep (st : ServerState) (sid : String) :
    ServerState × List ServerAction :=
  let clients := st.connectedClients.erase sid
  if clients.isEmpty then
    ({ connectedClients := clients, engineRunning := false },
      [ServerAction.stopCapture, ServerAction.callReleaseAll])
  else
    ({ connectedClients := clients, engineRunning := st.engineRunning }, [])

/-- Server states reachable from construction through well-formed socket
events: the transport layer assigns a fresh sid on connect and fires
disconnect only for connected sids. -/
inductive ServerReachable : ServerState → Prop
  | init : ServerReachable initServer
  | connect (st sid) : ServerReachable st → sid ∉ st.connectedClients →
      ServerReachable (connectStep st sid).1
  | disconnect (st sid) : ServerReachable st → sid ∈ st.connectedClients →
      ServerReachable (disconnectStep st sid).1

/-! ## Association-list lemmas -/

theorem find?_map_update (l : List (String × Bool)) (k : String) (v : Bool)
    (h : l.any (fun p => p.1 == k) = true) :
    (l.map fun p => if p.1 == k then (k, v) else p).find? (fun p => p.1 == k)
      = some (k, v) := by
  induction l with
  | nil => simp at h
  | cons p t ih =>
    by_cases hp : (p.1 == k) = true
    · simp [List.find?, hp]
    · have ht : t.any (fun p => p.1 == k) = true := by
        simp only [List.any_cons, Bool.or_eq_true] at h
        exact h.resolve_left hp
      simp only [List.map_cons, if_neg hp, List.find?]
      rw [Bool.of_not_eq_true hp]
      exact ih ht

theorem find?_append_new (l : List (String × Bool)) (k : String) (v : Bool)
    (h : l.any (fun p => p.1 == k) = false) :
    (l ++ [(k, v)]).find? (fun p => p.1 == k) = some (k, v) := by
  induction l with
  | nil => simp [List.find?]
  | cons p t ih =>
    simp only [List.any_cons, Bool.or_eq_false_iff] at h
    simp only [List.cons_append, List.find?, h.1]
    exact ih h.2

theorem dictGet_dictSet_self (l : List (String × Bool)) (k : String) (v : Bool) :
    dictGet (dictSet l k v) k = v := by
  unfold dictSet
  by_cases h : l.any (fun p => p.1 == k) = true
  · rw [if_pos h, dictGet, find?_map_update l k v h]
  · rw [if_neg h, dictGet, find?_append_new l k v (Bool.of_not_eq_true h)]

theorem mem_dictSet (l : List (String × Bool)) (k : String) (v : Bool)
    (a : String × Bool) (h : a ∈ dictSet l k v) : a ∈ l ∨ a = (k, v) := by
  unfold dictSet at h
  split at h
  · rcases List.mem_map.mp h with ⟨p, hp, he⟩
    by_cases hpk : (p.1 == k) = true
    · right
      rw [if_pos hpk] at he
      exact he.symm
    · left
      rw [if_neg hpk] at he
      exact he ▸ hp
  · rcases List.mem_append.mp h with h | h
    · left; exact h
    · right
      simpa using h

/-! ## Claim theorems -/

/-- C1: a `mousedown` forwards a press to the injection sink exactly when the
button is not currently marked pressed, and a `mouseup` forwards a release
exactly when it is marked pressed; in particular, from a state where the
button is released, `mousedown, mousedown, mouseup, mouseup` forwards exactly
one press (at the first event) and exactly one release (at the third). -/
theorem mousedown_mouseup_press_release_gating (s : InputState) (name : String) :
    ((handleMousedown s name).2 ≠ [] ↔ dictGet s.buttonState name = false) ∧
    ((handleMouseup s name).2 ≠ [] ↔ dictGet s.buttonState name = true) ∧
    (dictGet s.buttonState name = false →
      (handleMousedown s name).2 = [SinkCmd.press (getButton name)] ∧
      (handleMousedown (handleMousedown s name).1 name).2 = [] ∧
      (handleMouseup (handleMousedown (handleMousedown s name).1 name).1 name).2
        = [SinkCmd.release (getButton name)] ∧
      (handleMouseup (handleMouseup
          (handleMousedown (handleMousedown s name).1 name).1 name).1 name).2
        = []) := by
  by_cases h : dictGet s.buttonState name = false
  · simp [handleMousedown, handleMouseup, h, dictGet_dictSet_self]
  · have h' : dictGet s.buttonState name = true := by
      cases hb : dictGet s.buttonState name
      · exact absurd hb h
      · rfl
    simp [handleMousedown, handleMouseup, h']

/-- C1 witness: the gating theorem instantiated at the initial handler state
and the left button. -/
theorem mousedown_mouseup_press_release_gating_witness :
    ((handleMousedown initInput "left").2 ≠ []
        ↔ dictGet initInput.buttonState "left" = false) ∧
    ((handleMouseup initInput "left").2 ≠ []
        ↔ dictGet initInput.buttonState "left" = true) ∧
    (dictGet initInput.buttonState "left" = false →
      (handleMousedown initInput "left").2 = [SinkCmd.press (getButton "left")] ∧
      (handleMousedown (handleMousedown initInput "left").1 "left").2 = [] ∧
      (handleMouseup (handleMousedown
          (handleMousedown initInput "left").1 "left").1 "left").2
        = [SinkCmd.release (getButton "left")] ∧
      (handleMouseup (handleMouseup (handleMousedown
          (handleMousedown initInput "left").1 "left").1 "left").1 "left").2
        = []) :=
  mousedown_mouseup_press_release_gating initInput "left"

/-- C2: for a positive client viewport and a set desktop size, the transformed
desktop coordinate of any move event lies in `[0, desktopW-1] x [0, desktopH-1]`,
for all rational input coordinates, including ones outside the viewport. -/
theorem transform_coordinates_clamped (s : InputState) (x y : ℚ)
    (cw ch : Int) (hcw : 0 < cw) (hch : 0 < ch)
    (hw : 1 ≤ s.desktopWidth) (hh : 1 ≤ s.desktopHeight) :
    0 ≤ (transformCoordinates s x y cw ch).1 ∧
    (transformCoordinates s x y cw ch).1 ≤ s.desktopWidth - 1 ∧
    0 ≤ (transformCoordinates s x y cw ch).2 ∧
    (transformCoordinates s x y cw ch).2 ≤ s.desktopHeight - 1 := by
  refine ⟨le_max_left _ _, ?_, le_max_left _ _, ?_⟩
  · exact max_le (by omega) (min_le_right _ _)
  · exact max_le (by omega) (min_le_right _ _)

/-- C2 witness: a coordinate far outside the 100x50 client viewport still
lands inside the 1920x1080 desktop. -/
theorem transform_coordinates_clamped_witness :
    0 ≤ (transformCoordinates initInput 12345 (-7) 100 50).1 ∧
    (transformCoordinates initInput 12345 (-7) 100 50).1
        ≤ initInput.desktopWidth - 1 ∧
    0 ≤ (transformCoordinates initInput 12345 (-7) 100 50).2 ∧
    (transformCoordinates initInput 12345 (-7) 100 50).2
        ≤ initInput.desktopHeight - 1 :=
  transform_coordinates_clamped initInput 12345 (-7) 100 50
    (by decide) (by decide) (by decide) (by decide)

/-- C9: mapping the client midpoint yields the desktop midpoint within one
unit on each axis, and with a 1280x720 client and 1920x1080 desktop, input
(640, 360) maps exactly to (960, 540). -/
theorem midpoint_maps_to_center (s : InputState) (cw ch : Int)
    (hcw : 0 < cw) (hch : 0 < ch)
    (hw : 1 ≤ s.desktopWidth) (hh : 1 ≤ s.desktopHeight) :
    |(((transformCoordinates s ((cw : ℚ)/2) ((ch : ℚ)/2) cw ch).1 : ℚ)
        - (s.desktopWidth : ℚ)/2)| ≤ 1 ∧
    |(((transformCoordinates s ((cw : ℚ)/2) ((ch : ℚ)/2) cw ch).2 : ℚ)
        - (s.desktopHeight : ℚ)/2)| ≤ 1 ∧
    transformCoordinates initInput 640 360 1280 720 = (960, 540) := by
  have key : ∀ c d : Int, 0 < c → 1 ≤ d →
      |(((max 0 (min (pyTrunc ((c : ℚ)/2 / (c : ℚ) * (d : ℚ))) (d - 1)) : ℤ) : ℚ)
        - (d : ℚ)/2)| ≤ 1 := by
    intro c d hc hd
    have hc0 : (c : ℚ) ≠ 0 := by
      exact_mod_cast hc.ne.symm
    have harg : (c : ℚ)/2 / (c : ℚ) * (d : ℚ) = (d : ℚ)/2 := by
      field_simp
      ring
    have hd1 : (1 : ℚ) ≤ (d : ℚ) := by exact_mod_cast hd
    have hd0 : (0 : ℚ) ≤ (d : ℚ)/2 := by linarith
    have hpt : pyTrunc ((d : ℚ)/2) = ⌊(d : ℚ)/2⌋ := by
      simp only [pyTrunc, if_pos hd0]
    rw [harg, hpt]
    have ht1 : ((⌊(d : ℚ)/2⌋ : ℤ) : ℚ) ≤ (d : ℚ)/2 := Int.floor_le _
    have ht2 : (d : ℚ)/2 < (⌊(d : ℚ)/2⌋ : ℚ) + 1 := Int.lt_floor_add_one _
    have h0t : (0 : ℤ) ≤ ⌊(d : ℚ)/2⌋ := Int.le_floor.mpr (by exact_mod_cast hd0)
    have htd : ⌊(d : ℚ)/2⌋ < d := Int.floor_lt.mpr (by linarith)
    rw [min_eq_left (by omega), max_eq_right h0t]
    rw [abs_le]
    constructor <;> linarith
  have hconc : transformCoordinates initInput 640 360 1280 720 = (960, 540) := by
    have e1 : (640 : ℚ) / (((1280 : ℤ)) : ℚ) * ((initInput.desktopWidth : ℤ) : ℚ)
        = ((960 : ℤ) : ℚ) := by
      norm_num [initInput]
    have e2 : (360 : ℚ) / (((720 : ℤ)) : ℚ) * ((initInput.desktopHeight : ℤ) : ℚ)
        = ((540 : ℤ) : ℚ) := by
      norm_num [initInput]
    have p1 : pyTrunc ((960 : ℤ) : ℚ) = 960 := by
      simp [pyTrunc, Int.floor_intCast]
    have p2 : pyTrunc ((540 : ℤ) : ℚ) = 540 := by
      simp [pyTrunc, Int.floor_intCast]
    simp only [transformCoordinates, e1, e2, p1, p2]
    norm_num [initInput]
  refine ⟨?_, ?_, hconc⟩
  · simpa only [transformCoordinates] using key cw s.desktopWidth hcw hw
  · simpa only [transformCoordinates] using key ch s.desktopHeight hch hh

/-- C9 witness: the midpoint theorem instantiated at the 1280x720 client
viewport and the default 1920x1080 desktop. -/
theorem midpoint_maps_to_center_witness :
    |(((transformCoordinates initInput ((1280 : ℚ)/2) ((720 : ℚ)/2) 1280 720).1 : ℚ)
        - (initInput.desktopWidth : ℚ)/2)| ≤ 1 ∧
    |(((transformCoordinates initInput ((1280 : ℚ)/2) ((720 : ℚ)/2) 1280 720).2 : ℚ)
        - (initInput.desktopHeight : ℚ)/2)| ≤ 1 ∧
    transformCoordinates initInput 640 360 1280 720 = (960, 540) :=
  midpoint_maps_to_center initInput 1280 720
    (by decide) (by decide) (by decide) (by decide)

/-- C10: `_get_button` maps every unrecognized button name to the left mouse
button, so a `mousedown` with an unrecognized name injects a left press while
recording pressed-state under that name, and a following `mousedown` for
"left" injects a second left press with no release in between. -/
theorem unknown_button_maps_to_left (name : String)
    (h1 : name ≠ "left") (h2 : name ≠ "right") (h3 : name ≠ "middle") :
    getButton name = Button.left ∧
    (handleMousedown initInput name).2 = [SinkCmd.press Button.left] ∧
    (handleMousedown (handleMousedown initInput name).1 "left").2
      = [SinkCmd.press Button.left] := by
  have b1 : ("left" == name) = false := beq_eq_false_iff_ne.mpr (Ne.symm h1)
  have b2 : ("right" == name) = false := beq_eq_false_iff_ne.mpr (Ne.symm h2)
  have b3 : ("middle" == name) = false := beq_eq_false_iff_ne.mpr (Ne.symm h3)
  have hbtn : getButton name = Button.left := by
    simp [getButton, h1, h2, h3]
  refine ⟨hbtn, ?_, ?_⟩ <;>
    simp [handleMousedown, initInput, dictGet, dictSet, List.find?, getButton,
      b1, b2, b3, h1, h2, h3, hbtn]

/-- C10 witness: the unknown-button theorem instantiated at button name
"x2". -/
theorem unknown_button_maps_to_left_witness :
    getButton "x2" = Button.left ∧
    (handleMousedown initInput "x2").2 = [SinkCmd.press Button.left] ∧
    (handleMousedown (handleMousedown initInput "x2").1 "left").2
      = [SinkCmd.press Button.left] :=
  unknown_button_maps_to_left "x2" (by decide) (by decide) (by decide)

/-! ## QualityController lemmas -/

/-- The only values the committed quality can take for a controller with base
quality `b`: the base itself and the two threshold targets. -/
def qcTargets (b q : ℚ) : Prop :=
  q = b ∨ q = min (b + 1/10) maxQuality ∨ q = max (b - 1/5) minQuality

theorem adjustQuality_cases (b current : ℚ) (samples : List ℚ) :
    adjustQuality b current samples = current ∨
    adjustQuality b current samples = b ∨
    adjustQuality b current samples = min (b + 1/10) maxQuality ∨
    adjustQuality b current samples = max (b - 1/5) minQuality := by
  simp only [adjustQuality]
  split_ifs <;> tauto

theorem record_latency_base_eq (qc : QC) (ms : ℚ) :
    (qc.record_latency ms).base_quality = qc.base_quality := rfl

theorem qcTargets_record_latency (b : ℚ) (qc : QC) (ms : ℚ)
    (hb : qc.base_quality = b) (h : qcTargets b qc.current_quality) :
    qcTargets b (qc.record_latency ms).current_quality := by
  have hc : (qc.record_latency ms).current_quality
      = adjustQuality b qc.current_quality (qc.record_latency ms).latency_samples := by
    rw [← hb]
    rfl
  rw [hc]
  rcases adjustQuality_cases b qc.current_quality (qc.record_latency ms).latency_samples
    with h' | h' | h' | h' <;> rw [h']
  · exact h
  · exact Or.inl rfl
  · exact Or.inr (Or.inl rfl)
  · exact Or.inr (Or.inr rfl)

theorem qcReachable_base_targets (b : ℚ) (qc : QC) (h : QCReachable b qc) :
    qc.base_quality = b ∧ qcTargets b qc.current_quality := by
  induction h with
  | init => exact ⟨rfl, Or.inl rfl⟩
  | record qc ms _ ih =>
    refine ⟨?_, qcTargets_record_latency b qc ms ih.1 ih.2⟩
    rw [record_latency_base_eq]
    exact ih.1

/-- A controller driven from construction by a list of latency samples. -/
def qcRun (b : ℚ) (samples : List ℚ) : QC :=
  List.foldl QC.record_latency (QC.init b) samples

theorem qcReachable_foldl (b : ℚ) (l : List ℚ) (qc : QC) (h : QCReachable b qc) :
    QCReachable b (List.foldl QC.record_latency qc l) := by
  induction l generalizing qc with
  | nil => exact h
  | cons x t ih => exact ih _ (QCReachable.record qc x h)

theorem qcRun_reachable (b : ℚ) (samples : List ℚ) :
    QCReachable b (qcRun b samples) :=
  qcReachable_foldl b samples _ QCReachable.init

/-- C4 counterexample: a base quality of 0.2 passes the CLI clamp to
[0.1, 1.0], and the freshly constructed controller is a reachable state whose
`get_quality` is 0.2, strictly below the claimed lower bound 0.4. -/
theorem quality_range_cex :
    QCReachable (1/5) (QC.init (1/5)) ∧
    (1 : ℚ)/10 ≤ 1/5 ∧ (1 : ℚ)/5 ≤ 1 ∧
    (QC.init (1/5)).get_quality < minQuality :=
  ⟨QCReachable.init, by norm_num, by norm_num,
    by norm_num [QC.init, QC.get_quality, minQuality]⟩

/-- C4 amended: for every reachable state of a controller whose base quality
was clamped to [0.1, 1.0], `get_quality` lies in [min(base, 0.4), 1.0]; the
claimed range [0.4, 1.0] therefore holds exactly when base >= 0.4, but a base
below 0.4 is itself a reachable quality. -/
theorem quality_range_reachable (b : ℚ) (qc : QC) (h : QCReachable b qc)
    (hb1 : 1/10 ≤ b) (hb2 : b ≤ 1) :
    min b minQuality ≤ qc.get_quality ∧ qc.get_quality ≤ maxQuality := by
  obtain ⟨-, ht⟩ := qcReachable_base_targets b qc h
  simp only [qcTargets, minQuality, maxQuality] at ht
  simp only [QC.get_quality, minQuality, maxQuality]
  rcases ht with h' | h' | h' <;> rw [h']
  · exact ⟨min_le_left _ _, hb2⟩
  · refine ⟨le_min ?_ ?_, min_le_right _ _⟩
    · have := min_le_left b (2/5 : ℚ)
      linarith
    · have := min_le_right b (2/5 : ℚ)
      linarith
  · exact ⟨le_trans (min_le_right _ _) (le_max_right _ _),
      max_le (by linarith) (by norm_num)⟩

/-- C4 witness: the amended range theorem instantiated at base quality 0.5 on
the freshly constructed controller. -/
theorem quality_range_reachable_witness :
    min (1/2 : ℚ) minQuality ≤ (QC.init (1/2)).get_quality ∧
    (QC.init (1/2)).get_quality ≤ maxQuality :=
  quality_range_reachable (1/2) (QC.init (1/2)) QCReachable.init
    (by norm_num) (by norm_num)

/-- C3 counterexample: with base quality 0.44 (CLI-admissible), three 300 ms
samples give a window of 3 samples whose mean 300 exceeds the 200 ms
threshold, yet `record_latency` leaves the quality unchanged (the down-target
0.4 differs from 0.44 by only 0.04, within the 0.05 hysteresis), so the
quality does not strictly decrease. -/
theorem quality_decrease_hysteresis_cex :
    (1 : ℚ)/10 ≤ 11/25 ∧ (11 : ℚ)/25 ≤ 1 ∧
    (qcRun (11/25) [300, 300, 300]).latency_samples.length = 3 ∧
    highLatencyThreshold <
      (qcRun (11/25) [300, 300, 300]).latency_samples.sum
        / ((qcRun (11/25) [300, 300, 300]).latency_samples.length : ℚ) ∧
    (qcRun (11/25) [300, 300, 300]).get_quality
      = (qcRun (11/25) [300, 300]).get_quality ∧
    ¬ ((qcRun (11/25) [300, 300, 300]).get_quality
      < (qcRun (11/25) [300, 300]).get_quality) := by
  have e3 : qcRun (11/25) [300, 300, 300]
      = ⟨11/25, 11/25, [300, 300, 300]⟩ := by
    norm_num [qcRun, QC.record_latency, QC.init, adjustQuality, maxSamples,
      lowLatencyThreshold, highLatencyThreshold, minQuality, maxQuality,
      max_def, abs_of_nonpos, abs_of_nonneg]
  have e2 : qcRun (11/25) [300, 300] = ⟨11/25, 11/25, [300, 300]⟩ := by
    norm_num [qcRun, QC.record_latency, QC.init, adjustQuality, maxSamples]
  refine ⟨by norm_num, by norm_num, ?_, ?_, ?_, ?_⟩ <;>
    simp only [e3, e2] <;> norm_num [QC.get_quality, highLatencyThreshold]

/-- C3 amended: with fewer than 3 samples in the window `record_latency`
never changes the quality; with at least 3 samples and a window mean below
50 ms it commits min(base+0.1, 1.0), a strict increase whenever the current
quality is below base; with a mean above 200 ms it commits
max(base-0.2, 0.4), a strict decrease, provided that target is more than the
0.05 hysteresis below the current quality (without that proviso the claim
fails, see the counterexample); otherwise (mean in [50, 200] ms) the target
is base, committed exactly when it differs from the current quality by more
than 0.05. -/
theorem record_latency_quality_adjustment (b : ℚ) (qc : QC)
    (h : QCReachable b qc) (hb1 : 1/10 ≤ b) (hb2 : b ≤ 1) (ms : ℚ) :
    (qc.latency_samples.length + 1 < 3 →
      (qc.record_latency ms).current_quality = qc.current_quality) ∧
    (3 ≤ (qc.record_latency ms).latency_samples.length →
      (qc.record_latency ms).latency_samples.sum
          / ((qc.record_latency ms).latency_samples.length : ℚ) < 50 →
      qc.current_quality < b →
      ((qc.record_latency ms).current_quality = min (b + 1/10) 1 ∧
        qc.current_quality < (qc.record_latency ms).current_quality ∧
        (qc.record_latency ms).current_quality ≤ 1)) ∧
    (3 ≤ (qc.record_latency ms).latency_samples.length →
      200 < (qc.record_latency ms).latency_samples.sum
          / ((qc.record_latency ms).latency_samples.length : ℚ) →
      1/20 < qc.current_quality - max (b - 1/5) (2/5) →
      ((qc.record_latency ms).current_quality = max (b - 1/5) (2/5) ∧
        (qc.record_latency ms).current_quality < qc.current_quality ∧
        2/5 ≤ (qc.record_latency ms).current_quality)) ∧
    (3 ≤ (qc.record_latency ms).latency_samples.length →
      50 ≤ (qc.record_latency ms).latency_samples.sum
          / ((qc.record_latency ms).latency_samples.length : ℚ) →
      (qc.record_latency ms).latency_samples.sum
          / ((qc.record_latency ms).latency_samples.length : ℚ) ≤ 200 →
      ((1/20 < |b - qc.current_quality| →
        (qc.record_latency ms).current_quality = b) ∧
       (|b - qc.current_quality| ≤ 1/20 →
        (qc.record_latency ms).current_quality = qc.current_quality))) := by
  obtain ⟨hb, ht⟩ := qcReachable_base_targets b qc h
  have hc : (qc.record_latency ms).current_quality
      = adjustQuality b qc.current_quality (qc.record_latency ms).latency_samples := by
    rw [← hb]
    rfl
  refine ⟨?_, ?_, ?_, ?_⟩
  · intro hlen
    have hwin : (qc.record_latency ms).latency_samples
        = qc.latency_samples ++ [ms] := by
      show (if (qc.latency_samples ++ [ms]).length > maxSamples
          then (qc.latency_samples ++ [ms]).drop 1
          else (qc.latency_samples ++ [ms])) = _
      rw [if_neg]
      simp only [List.length_append, List.length_cons, List.length_nil, maxSamples]
      omega
    have hlen2 : (qc.record_latency ms).latency_samples.length < 3 := by
      rw [hwin]
      simp only [List.length_append, List.length_cons, List.length_nil]
      omega
    rw [hc]
    simp only [adjustQuality]
    rw [if_pos hlen2]
  · intro hlen3 havg hcur
    have hnotlt : ¬ ((qc.record_latency ms).latency_samples.length < 3) := by omega
    have hcd : qc.current_quality = max (b - 1/5) (2/5) := by
      simp only [qcTargets, minQuality, maxQuality] at ht
      rcases ht with h' | h' | h'
      · exact absurd h' (ne_of_lt hcur)
      · exfalso
        have hup : b ≤ min (b + 1/10) 1 := le_min (by linarith) hb2
        rw [h'] at hcur
        linarith
      · exact h'
    have hdelta : 1/20 < min (b + 1/10) 1 - qc.current_quality := by
      rw [hcd]
      rcases le_total (b - 1/5) (2/5 : ℚ) with hbc | hbc
      · rw [max_eq_right hbc]
        have h25b : 2/5 < b := by
          rw [hcd, max_eq_right hbc] at hcur
          exact hcur
        have : (1/20 : ℚ) + 2/5 < min (b + 1/10) 1 :=
          lt_min (by linarith) (by norm_num)
        linarith
      · rw [max_eq_left hbc]
        have : (1/20 : ℚ) + (b - 1/5) < min (b + 1/10) 1 :=
          lt_min (by linarith) (by linarith)
        linarith
    have hcommit : 1/20 < |min (b + 1/10) 1 - qc.current_quality| := by
      rw [abs_of_pos (by linarith)]
      exact hdelta
    have key : adjustQuality b qc.current_quality
        (qc.record_latency ms).latency_samples = min (b + 1/10) 1 := by
      simp only [adjustQuality, minQuality, maxQuality, lowLatencyThreshold,
        highLatencyThreshold]
      rw [if_neg hnotlt, if_pos havg, if_pos hcommit]
    rw [hc, key]
    exact ⟨rfl, by linarith, min_le_right _ _⟩
  · intro hlen3 havg hgap
    have hnotlt : ¬ ((qc.record_latency ms).latency_samples.length < 3) := by omega
    have hnotlow : ¬ ((qc.record_latency ms).latency_samples.sum
        / ((qc.record_latency ms).latency_samples.length : ℚ) < 50) := by
      linarith
    have hcommit : 1/20 < |max (b - 1/5) (2/5) - qc.current_quality| := by
      rw [abs_sub_comm, abs_of_pos (by linarith)]
      linarith
    have key : adjustQuality b qc.current_quality
        (qc.record_latency ms).latency_samples = max (b - 1/5) (2/5) := by
      simp only [adjustQuality, minQuality, maxQuality, lowLatencyThreshold,
        highLatencyThreshold]
      rw [if_neg hnotlt, if_neg hnotlow, if_pos havg, if_pos hcommit]
    rw [hc, key]
    exact ⟨rfl, by linarith, le_max_right _ _⟩
  · intro hlen3 hlow hhigh
    have hnotlt : ¬ ((qc.record_latency ms).latency_samples.length < 3) := by omega
    have hnotlow : ¬ ((qc.record_latency ms).latency_samples.sum
        / ((qc.record_latency ms).latency_samples.length : ℚ) < 50) := by
      linarith
    have hnothigh : ¬ (200 < (qc.record_latency ms).latency_samples.sum
        / ((qc.record_latency ms).latency_samples.length : ℚ)) := by
      linarith
    constructor
    · intro hcommit
      have key : adjustQuality b qc.current_quality
          (qc.record_latency ms).latency_samples = b := by
        simp only [adjustQuality, minQuality, maxQuality, lowLatencyThreshold,
          highLatencyThreshold]
        rw [if_neg hnotlt, if_neg hnotlow, if_neg hnothigh, if_pos hcommit]
      rw [hc, key]
    · intro hstay
      have key : adjustQuality b qc.current_quality
          (qc.record_latency ms).latency_samples = qc.current_quality := by
        simp only [adjustQuality, minQuality, maxQuality, lowLatencyThreshold,
          highLatencyThreshold]
        rw [if_neg hnotlt, if_neg hnotlow, if_neg hnothigh,
          if_neg (not_lt.mpr hstay)]
      rw [hc, key]

/-- Concrete reachable controller for the C3 witness: base quality 0.45;
three 0 ms samples raise the quality to 0.55, one 1000 ms sample drops it to
0.4 (below base), and nine further 0 ms samples flush the window without
further commits. -/
def qcWitnessState : QC :=
  qcRun (9/20) [0, 0, 0, 1000, 0, 0, 0, 0, 0, 0, 0, 0, 0]

/-- C3 witness: at `qcWitnessState` the next `record_latency` sees a window
mean below 50 ms with current quality below base. -/
theorem record_latency_quality_adjustment_witness :
    (qcWitnessState.latency_samples.length + 1 < 3 →
      (qcWitnessState.record_latency 0).current_quality
        = qcWitnessState.current_quality) ∧
    (3 ≤ (qcWitnessState.record_latency 0).latency_samples.length →
      (qcWitnessState.record_latency 0).latency_samples.sum
          / (((qcWitnessState.record_latency 0).latency_samples.length : ℚ)) < 50 →
      qcWitnessState.current_quality < 9/20 →
      ((qcWitnessState.record_latency 0).current_quality = min ((9:ℚ)/20 + 1/10) 1 ∧
        qcWitnessState.current_quality
          < (qcWitnessState.record_latency 0).current_quality ∧
        (qcWitnessState.record_latency 0).current_quality ≤ 1)) ∧
    (3 ≤ (qcWitnessState.record_latency 0).latency_samples.length →
      200 < (qcWitnessState.record_latency 0).latency_samples.sum
          / (((qcWitnessState.record_latency 0).latency_samples.length : ℚ)) →
      1/20 < qcWitnessState.current_quality - max ((9:ℚ)/20 - 1/5) (2/5) →
      ((qcWitnessState.record_latency 0).current_quality = max ((9:ℚ)/20 - 1/5) (2/5) ∧
        (qcWitnessState.record_latency 0).current_quality
          < qcWitnessState.current_quality ∧
        2/5 ≤ (qcWitnessState.record_latency 0).current_quality)) ∧
    (3 ≤ (qcWitnessState.record_latency 0).latency_samples.length →
      50 ≤ (qcWitnessState.record_latency 0).latency_samples.sum
          / (((qcWitnessState.record_latency 0).latency_samples.length : ℚ)) →
      (qcWitnessState.record_latency 0).latency_samples.sum
          / (((qcWitnessState.record_latency 0).latency_samples.length : ℚ)) ≤ 200 →
      ((1/20 < |(9:ℚ)/20 - qcWitnessState.current_quality| →
        (qcWitnessState.record_latency 0).current_quality = 9/20) ∧
       (|(9:ℚ)/20 - qcWitnessState.current_quality| ≤ 1/20 →
        (qcWitnessState.record_latency 0).current_quality
          = qcWitnessState.current_quality))) :=
  record_latency_quality_adjustment (9/20) qcWitnessState
    (qcRun_reachable (9/20) [0, 0, 0, 1000, 0, 0, 0, 0, 0, 0, 0, 0, 0])
    (by norm_num) (by norm_num) 0

/-! ## Quality-cache lemmas (C5) -/

theorem pyTrunc_eq_floor (q : ℚ) (h : 0 ≤ q) : pyTrunc q = ⌊q⌋ := by
  simp only [pyTrunc, if_pos h]

theorem qcTargets_range (b q : ℚ) (hb1 : 3/10 ≤ b) (hb2 : b ≤ 1)
    (h : qcTargets b q) : 3/10 ≤ q ∧ q ≤ 1 := by
  simp only [qcTargets, minQuality, maxQuality] at h
  rcases h with h' | h' | h' <;> rw [h']
  · exact ⟨hb1, hb2⟩
  · exact ⟨le_min (by linarith) (by norm_num), min_le_right _ _⟩
  · exact ⟨le_trans (by norm_num) (le_max_right _ _),
      max_le (by linarith) (by norm_num)⟩

theorem setQualityPercent_close (q : ℚ) (h1 : 3/10 ≤ q) (h2 : q ≤ 1) :
    |q - ((setQualityPercent q : ℤ) : ℚ) / 100| ≤ 1/20 := by
  have h30 : (30 : ℤ) ≤ ⌊q * 100⌋ := Int.le_floor.mpr (by push_cast; linarith)
  have h100 : ⌊q * 100⌋ ≤ (100 : ℤ) := by
    have := Int.floor_le (q * 100)
    have hle : (q : ℚ) * 100 ≤ 100 := by linarith
    exact_mod_cast le_trans this hle
  have hsq : setQualityPercent q = ⌊q * 100⌋ := by
    rw [setQualityPercent, pyTrunc_eq_floor _ (by linarith)]
    rw [min_eq_right h100, max_eq_right h30]
  rw [hsq]
  have hf1 : ((⌊q * 100⌋ : ℤ) : ℚ) ≤ q * 100 := Int.floor_le _
  have hf2 : q * 100 < ((⌊q * 100⌋ : ℤ) : ℚ) + 1 := Int.lt_floor_add_one _
  rw [abs_le]
  constructor <;> linarith

/-- Invariant of the server's pong loop: the controller's base is `b`, its
committed quality is one of the three targets, and the capture engine's
cached percentage is within 0.05 of the committed quality. -/
def PongInv (b : ℚ) (st : PongState) : Prop :=
  st.qc.base_quality = b ∧ qcTargets b st.qc.current_quality ∧
  |st.qc.current_quality - ((st.currentJpegQuality : ℤ) : ℚ) / 100| ≤ 1/20

theorem pongInv_init (b : ℚ) (hb1 : 3/10 ≤ b) (hb2 : b ≤ 1) :
    PongInv b (PongState.init b) := by
  refine ⟨rfl, Or.inl rfl, ?_⟩
  show |b - ((pyTrunc (b * 100) : ℤ) : ℚ) / 100| ≤ 1/20
  rw [pyTrunc_eq_floor _ (by linarith)]
  have hf1 : ((⌊b * 100⌋ : ℤ) : ℚ) ≤ b * 100 := Int.floor_le _
  have hf2 : b * 100 < ((⌊b * 100⌋ : ℤ) : ℚ) + 1 := Int.lt_floor_add_one _
  rw [abs_le]
  constructor <;> linarith

theorem pongInv_step (b : ℚ) (hb1 : 3/10 ≤ b) (hb2 : b ≤ 1)
    (st : PongState) (ms : ℚ) (h : PongInv b st) :
    PongInv b (pongStep st ms) := by
  obtain ⟨hbase, htar, _⟩ := h
  have hbase' : (st.qc.record_latency ms).base_quality = b := by
    rw [record_latency_base_eq]
    exact hbase
  have htar' : qcTargets b (st.qc.record_latency ms).current_quality :=
    qcTargets_record_latency b st.qc ms hbase htar
  rw [pongStep]
  split
  · refine ⟨hbase', htar', ?_⟩
    obtain ⟨hr1, hr2⟩ := qcTargets_range b _ hb1 hb2 htar'
    exact setQualityPercent_close _ hr1 hr2
  · rename_i hcond
    rw [not_lt] at hcond
    exact ⟨hbase', htar', hcond⟩

theorem pongInv_foldl (b : ℚ) (hb1 : 3/10 ≤ b) (hb2 : b ≤ 1)
    (l : List ℚ) (st : PongState) (h : PongInv b st) :
    PongInv b (l.foldl pongStep st) := by
  induction l generalizing st with
  | nil => exact h
  | cons x t ih => exact ih _ (pongInv_step b hb1 hb2 st x h)

theorem pongInv_run (b : ℚ) (hb1 : 3/10 ≤ b) (hb2 : b ≤ 1)
    (latencies : List ℚ) : PongInv b (pongRun b latencies) :=
  pongInv_foldl b hb1 hb2 latencies _ (pongInv_init b hb1 hb2)

/-- C5 counterexample: with base quality 0.456 and three 300 ms pongs, the
controller commits quality 0.4 but the pong handler does not propagate it
(|0.4 - 45/100| = 0.05 is within the propagation hysteresis), so the capture
engine keeps encoding at the cached 45 percent while reading `get_quality()`
at encode time would give 40 percent: the cached path is not equivalent to
reading the controller at each encode. -/
theorem cached_quality_cex :
    (3 : ℚ)/10 ≤ 57/125 ∧ (57 : ℚ)/125 ≤ 1 ∧
    (pongRun (57/125) [300, 300, 300]).currentJpegQuality = 45 ∧
    (pongRun (57/125) [300, 300, 300]).qc.get_quality = 2/5 ∧
    setQualityPercent ((pongRun (57/125) [300, 300, 300]).qc.get_quality) = 40 ∧
    (pongRun (57/125) [300, 300, 300]).currentJpegQuality
      ≠ setQualityPercent ((pongRun (57/125) [300, 300, 300]).qc.get_quality) := by
  have hf45 : pyTrunc ((57/125 : ℚ) * 100) = 45 := by
    rw [pyTrunc_eq_floor _ (by norm_num)]
    exact Int.floor_eq_iff.mpr (by norm_num)
  have hf40 : pyTrunc ((2/5 : ℚ) * 100) = 40 := by
    rw [pyTrunc_eq_floor _ (by norm_num)]
    exact Int.floor_eq_iff.mpr (by norm_num)
  have e0 : PongState.init (57/125) = ⟨⟨57/125, 57/125, []⟩, 45⟩ := by
    simp only [PongState.init, QC.init, hf45]
  have r1 : QC.record_latency ⟨57/125, 57/125, []⟩ 300
      = ⟨57/125, 57/125, [300]⟩ := by
    norm_num [QC.record_latency, adjustQuality, maxSamples]
  have s1 : pongStep ⟨⟨57/125, 57/125, []⟩, 45⟩ 300
      = ⟨⟨57/125, 57/125, [300]⟩, 45⟩ := by
    norm_num [pongStep, r1, QC.get_quality, abs_of_nonneg, abs_of_nonpos]
  have r2 : QC.record_latency ⟨57/125, 57/125, [300]⟩ 300
      = ⟨57/125, 57/125, [300, 300]⟩ := by
    norm_num [QC.record_latency, adjustQuality, maxSamples]
  have s2 : pongStep ⟨⟨57/125, 57/125, [300]⟩, 45⟩ 300
      = ⟨⟨57/125, 57/125, [300, 300]⟩, 45⟩ := by
    norm_num [pongStep, r2, QC.get_quality, abs_of_nonneg, abs_of_nonpos]
  have r3 : QC.record_latency ⟨57/125, 57/125, [300, 300]⟩ 300
      = ⟨57/125, 2/5, [300, 300, 300]⟩ := by
    norm_num [QC.record_latency, adjustQuality, maxSamples, lowLatencyThreshold,
      highLatencyThreshold, minQuality, maxQuality, max_def, abs_of_nonpos,
      abs_of_nonneg]
  have s3 : pongStep ⟨⟨57/125, 57/125, [300, 300]⟩, 45⟩ 300
      = ⟨⟨57/125, 2/5, [300, 300, 300]⟩, 45⟩ := by
    norm_num [pongStep, r3, QC.get_quality, abs_of_nonneg, abs_of_nonpos]
  have erun : pongRun (57/125) [300, 300, 300]
      = ⟨⟨57/125, 2/5, [300, 300, 300]⟩, 45⟩ := by
    show pongStep (pongStep (pongStep (PongState.init (57/125)) 300) 300) 300 = _
    rw [e0, s1, s2, s3]
  rw [erun]
  have hsq : setQualityPercent (2/5) = 40 := by
    rw [setQualityPercent, hf40]
    norm_num
  refine ⟨by norm_num, by norm_num, rfl, rfl, hsq, ?_⟩
  show (45 : ℤ) ≠ setQualityPercent (2/5)
  rw [hsq]
  decide

/-- C5 amended: the capture engine encodes at the cached percentage, which the
pong handler keeps within 0.05 of `getQuality()` (for a base quality in
[0.3, 1.0]); a committed quality change takes effect on the next encode after
the same pong handler propagates it, but exact equality with reading
`getQuality()` at each encode call fails because propagation is gated by the
0.05 hysteresis against the percent-truncated cache. -/
theorem cached_quality_tracks_controller (b : ℚ) (hb1 : 3/10 ≤ b) (hb2 : b ≤ 1)
    (latencies : List ℚ) :
    |(pongRun b latencies).qc.get_quality
        - (((pongRun b latencies).currentJpegQuality : ℤ) : ℚ) / 100| ≤ 1/20 :=
  (pongInv_run b hb1 hb2 latencies).2.2

/-- C5 witness: the tracking theorem instantiated at base quality 0.5 and
three 300 ms pongs. -/
theorem cached_quality_tracks_controller_witness :
    |(pongRun (1/2) [300, 300, 300]).qc.get_quality
        - (((pongRun (1/2) [300, 300, 300]).currentJpegQuality : ℤ) : ℚ) / 100|
      ≤ 1/20 :=
  cached_quality_tracks_controller (1/2) (by norm_num) (by norm_num)
    [300, 300, 300]

/-- C6: feeding the capture loop 10 consecutive frames each identical (below
the 0.02 mean-difference threshold) to the current baseline, with a baseline
present and the skip counter at 0: frames 1-4 and 6-9 are skipped, the 5th
and 10th are emitted (skip cap 5 bounds staleness), so at most 1 in 5 frames
is emitted, and the consecutive-skip counter is 0 after every emitted
frame. -/
theorem identical_frames_skip_cap
    (b f1 f2 f3 f4 f5 f6 f7 f8 f9 f10 : Frame)
    (h1 : framesIdentical f1 b = true) (h2 : framesIdentical f2 b = true)
    (h3 : framesIdentical f3 b = true) (h4 : framesIdentical f4 b = true)
    (h5 : framesIdentical f5 b = true)
    (h6 : framesIdentical f6 f5 = true) (h7 : framesIdentical f7 f5 = true)
    (h8 : framesIdentical f8 f5 = true) (h9 : framesIdentical f9 f5 = true)
    (h10 : framesIdentical f10 f5 = true) :
    runCapture (some b) 0 [f1, f2, f3, f4, f5, f6, f7, f8, f9, f10]
      = [(false, 1), (false, 2), (false, 3), (false, 4), (true, 0),
         (false, 1), (false, 2), (false, 3), (false, 4), (true, 0)] ∧
    ((runCapture (some b) 0 [f1, f2, f3, f4, f5, f6, f7, f8, f9, f10]).filter
        (fun p => p.1)).length * 5 ≤ 10 ∧
    (∀ p ∈ runCapture (some b) 0 [f1, f2, f3, f4, f5, f6, f7, f8, f9, f10],
      p.1 = true → p.2 = 0) := by
  have e : runCapture (some b) 0 [f1, f2, f3, f4, f5, f6, f7, f8, f9, f10]
      = [(false, 1), (false, 2), (false, 3), (false, 4), (true, 0),
         (false, 1), (false, 2), (false, 3), (false, 4), (true, 0)] := by
    simp [runCapture, captureStep, h1, h2, h3, h4, h5, h6, h7, h8, h9, h10]
  refine ⟨e, ?_, ?_⟩ <;> rw [e] <;> decide

/-- C6 witness: ten copies of the one-pixel frame `[0]` against the baseline
`[0]` — all pairwise identical under the 0.02 threshold. -/
theorem identical_frames_skip_cap_witness :
    framesIdentical [0] [0] = true ∧
    (runCapture (some [0]) 0 [[0], [0], [0], [0], [0], [0], [0], [0], [0], [0]]
        = [(false, 1), (false, 2), (false, 3), (false, 4), (true, 0),
           (false, 1), (false, 2), (false, 3), (false, 4), (true, 0)] ∧
      ((runCapture (some [0]) 0
          [[0], [0], [0], [0], [0], [0], [0], [0], [0], [0]]).filter
          (fun p => p.1)).length * 5 ≤ 10 ∧
      (∀ p ∈ runCapture (some [0]) 0
          [[0], [0], [0], [0], [0], [0], [0], [0], [0], [0]],
        p.1 = true → p.2 = 0)) := by
  have hid : framesIdentical [0] [0] = true := by
    norm_num [framesIdentical]
  exact ⟨hid, identical_frames_skip_cap [0] [0] [0] [0] [0] [0] [0] [0] [0] [0] [0]
    hid hid hid hid hid hid hid hid hid hid⟩

/-! ## release_all and session-lifecycle lemmas (C7, C8) -/

/-- Recognizer for mouse-button releases among sink commands. -/
def SinkCmd.isButtonRelease : SinkCmd → Bool
  | SinkCmd.release _ => true
  | _ => false

/-- Recognizer for key releases among sink commands. -/
def SinkCmd.isKeyRelease : SinkCmd → Bool
  | SinkCmd.keyRelease _ => true
  | _ => false

theorem length_filterMap_pressed {α : Type} (l : List (String × Bool))
    (f : String → α) :
    (l.filterMap fun p => if p.2 then some (f p.1) else none).length
      = (l.filter fun p => p.2).length := by
  induction l with
  | nil => rfl
  | cons p t ih =>
    cases hp : p.2 <;> simp [List.filterMap_cons, hp, ih]

theorem length_filterMap_pressed_keys (l : List (String × Bool))
    (h : ∀ p ∈ l, p.2 = true → (parseKey p.1).isSome) :
    (l.filterMap fun p =>
        if p.2 then
          match parseKey p.1 with
          | some kobj => some (SinkCmd.keyRelease kobj)
          | none => none
        else none).length
      = (l.filter fun p => p.2).length := by
  induction l with
  | nil => rfl
  | cons p t ih =>
    have ht : ∀ q ∈ t, q.2 = true → (parseKey q.1).isSome :=
      fun q hq => h q (List.mem_cons_of_mem _ hq)
    cases hp : p.2
    · simp [List.filterMap_cons, hp, ih ht]
    · have hs := h p (List.mem_cons_self _ _) hp
      obtain ⟨kobj, hk⟩ := Option.isSome_iff_exists.mp hs
      simp [List.filterMap_cons, hp, hk, ih ht]

theorem all_false_after_clear (l : List (String × Bool)) :
    ∀ p ∈ l.map (fun p => if p.2 then (p.1, false) else p), p.2 = false := by
  intro p hp
  rcases List.mem_map.mp hp with ⟨q, hq, he⟩
  cases hq2 : q.2
  · rw [← he, if_neg (by simp [hq2])]
    exact hq2
  · rw [← he, if_pos hq2]

/-- Every key recorded as pressed by a reachable `InputHandler` state resolves
through `_parse_key` (the keydown handler only records parseable keys). -/
theorem inputReachable_keys_parseable (s : InputState) (h : InputReachable s) :
    ∀ p ∈ s.keyState, p.2 = true → (parseKey p.1).isSome := by
  induction h with
  | init => simp [initInput]
  | set_size s w h _ ih => simpa [setDesktopSize] using ih
  | move s x y cw ch _ ih => simpa [handleMove] using ih
  | click s n c _ ih => simpa [handleClick] using ih
  | mousedown s n _ ih =>
    intro p hp hpt
    refine ih p ?_ hpt
    revert hp
    simp only [handleMousedown]
    split <;> exact fun hp => hp
  | mouseup s n _ ih =>
    intro p hp hpt
    refine ih p ?_ hpt
    revert hp
    simp only [handleMouseup]
    split <;> exact fun hp => hp
  | scroll s dx dy _ ih => simpa [handleScroll] using ih
  | keydown s k _ ih =>
    intro p hp hpt
    revert hp
    simp only [handleKeydown]
    split
    · exact fun hp => ih p hp hpt
    · split
      · rename_i kobj hparse
        split
        · intro hp
          rcases mem_dictSet _ _ _ _ hp with hmem | heq
          · exact ih p hmem hpt
          · rw [heq]
            simp [hparse]
        · exact fun hp => ih p hp hpt
      · exact fun hp => ih p hp hpt
  | keyup s k _ ih =>
    intro p hp hpt
    revert hp
    simp only [handleKeyup]
    split
    · exact fun hp => ih p hp hpt
    · split
      · split
        · intro hp
          rcases mem_dictSet _ _ _ _ hp with hmem | heq
          · exact ih p hmem hpt
          · rw [heq] at hpt
            simp at hpt
        · exact fun hp => ih p hp hpt
      · exact fun hp => ih p hp hpt
  | keypress s k _ ih =>
    intro p hp hpt
    refine ih p ?_ hpt
    revert hp
    simp only [handleKeypress]
    split
    · exact fun hp => hp
    · split <;> exact fun hp => hp
  | release_every s _ ih =>
    intro p hp hpt
    have := all_false_after_clear s.keyState p hp
    rw [this] at hpt
    exact absurd hpt (by simp)

theorem buttonCmds_all_button_release (s : InputState) :
    ∀ a ∈ s.buttonState.filterMap (fun p =>
      if p.2 then some (SinkCmd.release (getButton p.1)) else none),
      a.isButtonRelease = true := by
  intro a ha
  rcases List.mem_filterMap.mp ha with ⟨p, _, he⟩
  cases hp : p.2
  · rw [hp] at he
    simp at he
  · rw [hp] at he
    simp at he
    rw [← he]
    rfl

theorem keyCmds_all_key_release (s : InputState) :
    ∀ a ∈ s.keyState.filterMap (fun p =>
      if p.2 then
        match parseKey p.1 with
        | some kobj => some (SinkCmd.keyRelease kobj)
        | none => none
      else none),
      a.isKeyRelease = true := by
  intro a ha
  rcases List.mem_filterMap.mp ha with ⟨p, _, he⟩
  cases hp : p.2
  · rw [hp] at he
    simp at he
  · rw [hp] at he
    cases hk : parseKey p.1
    · rw [hk] at he
      simp at he
    · rw [hk] at he
      simp at he
      rw [← he]
      rfl

/-- Well-formedness of reachable server states: distinct session ids, and the
capture engine runs exactly while clients are connected. -/
theorem serverReachable_inv (st : ServerState) (h : ServerReachable st) :
    st.connectedClients.Nodup ∧
    (st.engineRunning = true ↔ st.connectedClients ≠ []) := by
  induction h with
  | init => simp [initServer]
  | connect st sid _ hfresh ih =>
    simp only [connectStep]
    split
    · refine ⟨?_, by simp⟩
      simp [List.nodup_append, ih.1, List.disjoint_left]
      intro hmem
      exact hfresh hmem
    · rename_i hlen
      have hne : st.connectedClients ≠ [] := by
        intro hnil
        rw [hnil] at hlen
        simp at hlen
      refine ⟨?_, by simp [ih.2.mpr hne]⟩
      simp [List.nodup_append, ih.1, List.disjoint_left]
      intro hmem
      exact hfresh hmem
  | disconnect st sid _ hmem ih =>
    simp only [disconnectStep]
    split
    · rename_i hemp
      have herase : st.connectedClients.erase sid = [] := by
        simpa using hemp
      refine ⟨ih.1.erase sid, ?_⟩
      simp [herase]
    · rename_i hemp
      refine ⟨ih.1.erase sid, ?_⟩
      have hne : st.connectedClients ≠ [] := by
        intro hnil
        rw [hnil] at hmem
        simp at hmem
      simp only [ih.2.mpr hne, true_iff]
      intro hnil
      rw [hnil] at hemp
      simp at hemp

/-- C7: on a reachable input-handler state with N buttons and M keys marked
pressed, `release_all` forwards exactly N button releases and exactly M key
releases to the injection sink and leaves every button and key marked
released; and the server invokes `release_all` on a disconnect exactly when
the disconnecting sid was the last connected client. -/
theorem release_all_complete (s : InputState) (h : InputReachable s) :
    ((releaseAll s).2.filter SinkCmd.isButtonRelease).length
        = (s.buttonState.filter fun p => p.2).length ∧
    ((releaseAll s).2.filter SinkCmd.isKeyRelease).length
        = (s.keyState.filter fun p => p.2).length ∧
    (∀ p ∈ (releaseAll s).1.buttonState, p.2 = false) ∧
    (∀ p ∈ (releaseAll s).1.keyState, p.2 = false) ∧
    (∀ st sid, ServerReachable st → sid ∈ st.connectedClients →
      (ServerAction.callReleaseAll ∈ (disconnectStep st sid).2 ↔
        st.connectedClients = [sid])) := by
  have hkeys := inputReachable_keys_parseable s h
  simp only [releaseAll]
  refine ⟨?_, ?_, ?_, ?_, ?_⟩
  · rw [List.filter_append,
      List.filter_eq_self.mpr (buttonCmds_all_button_release s),
      List.filter_eq_nil_iff.mpr (fun a ha => by
        have hk := keyCmds_all_key_release s a ha
        cases a <;> simp_all [SinkCmd.isKeyRelease, SinkCmd.isButtonRelease]),
      List.append_nil]
    exact length_filterMap_pressed s.buttonState (fun n => SinkCmd.release (getButton n))
  · rw [List.filter_append,
      List.filter_eq_nil_iff.mpr (fun a ha => by
        have hk := buttonCmds_all_button_release s a ha
        cases a <;> simp_all [SinkCmd.isKeyRelease, SinkCmd.isButtonRelease]),
      List.filter_eq_self.mpr (keyCmds_all_key_release s),
      List.nil_append]
    exact length_filterMap_pressed_keys s.keyState hkeys
  · exact all_false_after_clear s.buttonState
  · exact all_false_after_clear s.keyState
  · intro st sid hst hmem
    obtain ⟨hnd, -⟩ := serverReachable_inv st hst
    simp only [disconnectStep]
    split
    · rename_i hemp
      have herase : st.connectedClients.erase sid = [] := by
        simpa using hemp
      have hpos : 0 < st.connectedClients.length := List.length_pos.mpr
        (fun hnil => by rw [hnil] at hmem; simp at hmem)
      have hlen : st.connectedClients.length = 1 := by
        have he := List.length_erase_of_mem hmem
        rw [herase] at he
        simp at he
        omega
      obtain ⟨a, ha⟩ := List.length_eq_one.mp hlen
      have hsa : sid = a := by
        rw [ha] at hmem
        simpa using hmem
      rw [ha, hsa]
      simp
    · rename_i hemp
      simp only [List.not_mem_nil, false_iff]
      intro heq
      apply hemp
      rw [heq]
      simp

/-- C7 witness state: press the left button and the key "a" from the initial
handler state. -/
def inputWitnessState : InputState :=
  (handleKeydown (handleMousedown initInput "left").1 "a").1

/-- C7 witness: the release-all theorem instantiated at a reachable state with
one pressed button and one pressed key. -/
theorem release_all_complete_witness :
    ((releaseAll inputWitnessState).2.filter SinkCmd.isButtonRelease).length
        = (inputWitnessState.buttonState.filter fun p => p.2).length ∧
    ((releaseAll inputWitnessState).2.filter SinkCmd.isKeyRelease).length
        = (inputWitnessState.keyState.filter fun p => p.2).length ∧
    (∀ p ∈ (releaseAll inputWitnessState).1.buttonState, p.2 = false) ∧
    (∀ p ∈ (releaseAll inputWitnessState).1.keyState, p.2 = false) ∧
    (∀ st sid, ServerReachable st → sid ∈ st.connectedClients →
      (ServerAction.callReleaseAll ∈ (disconnectStep st sid).2 ↔
        st.connectedClients = [sid])) :=
  release_all_complete inputWitnessState
    (InputReachable.keydown _ "a"
      (InputReachable.mousedown _ "left" InputReachable.init))

/-- C8: on every reachable server state the capture engine runs exactly while
clients are connected (so at most one capture loop runs at a time);
`capture_engine.start` is invoked by a connect exactly when the session count
transitions 0 to 1, and then only while the engine is not running (no second
instance); `stop` and `release_all` are invoked by a disconnect exactly when
the count transitions 1 to 0. -/
theorem capture_engine_lifecycle (st : ServerState) (h : ServerReachable st) :
    (st.engineRunning = true ↔ st.connectedClients ≠ []) ∧
    (∀ sid, sid ∉ st.connectedClients →
      ((ServerAction.startCapture ∈ (connectStep st sid).2) ↔
        st.connectedClients = []) ∧
      (ServerAction.startCapture ∈ (connectStep st sid).2 →
        st.engineRunning = false)) ∧
    (∀ sid, sid ∈ st.connectedClients →
      ((ServerAction.stopCapture ∈ (disconnectStep st sid).2 ∧
        ServerAction.callReleaseAll ∈ (disconnectStep st sid).2) ↔
        st.connectedClients = [sid])) := by
  obtain ⟨hnd, hrun⟩ := serverReachable_inv st h
  refine ⟨hrun, ?_, ?_⟩
  · intro sid _
    constructor
    · simp only [connectStep]
      split
      · rename_i hlen
        have hnil : st.connectedClients = [] := by
          rw [List.length_append] at hlen
          simp at hlen
          exact hlen
        simp [hnil]
      · rename_i hlen
        have hne : st.connectedClients ≠ [] := by
          intro hnil
          rw [hnil] at hlen
          simp at hlen
        simp [hne]
    · simp only [connectStep]
      split
      · rename_i hlen
        intro _
        have hnil : st.connectedClients = [] := by
          rw [List.length_append] at hlen
          simp at hlen
          exact hlen
        cases hb : st.engineRunning
        · rfl
        · exact absurd (hrun.mp hb) (by simp [hnil])
      · intro hmem
        simp at hmem
  · intro sid hmem
    simp only [disconnectStep]
    split
    · rename_i hemp
      have herase : st.connectedClients.erase sid = [] := by
        simpa using hemp
      have hlen : st.connectedClients.length = 1 := by
        have he := List.length_erase_of_mem hmem
        rw [herase] at he
        simp at he
        have hpos : 0 < st.connectedClients.length := List.length_pos.mpr
          (fun hnil => by rw [hnil] at hmem; simp at hmem)
        omega
      obtain ⟨a, ha⟩ := List.length_eq_one.mp hlen
      have hsa : sid = a := by
        rw [ha] at hmem
        simpa using hmem
      rw [ha, hsa]
      simp
    · rename_i hemp
      simp only [List.not_mem_nil, false_and, false_iff]
      intro heq
      apply hemp
      rw [heq]
      simp

/-- C8 witness state: the server after one client "a" connects. -/
def serverWitnessState : ServerState :=
  (connectStep initServer "a").1

/-- C8 witness: the lifecycle theorem instantiated at the one-client server
state. -/
theorem capture_engine_lifecycle_witness :
    (serverWitnessState.engineRunning = true ↔
      serverWitnessState.connectedClients ≠ []) ∧
    (∀ sid, sid ∉ serverWitnessState.connectedClients →
      ((ServerAction.startCapture ∈ (connectStep serverWitnessState sid).2) ↔
        serverWitnessState.connectedClients = []) ∧
      (ServerAction.startCapture ∈ (connectStep serverWitnessState sid).2 →
        serverWitnessState.engineRunning = false)) ∧
    (∀ sid, sid ∈ serverWitnessState.connectedClients →
      ((ServerAction.stopCapture ∈ (disconnectStep serverWitnessState sid).2 ∧
        ServerAction.callReleaseAll ∈ (disconnectStep serverWitnessState sid).2) ↔
        serverWitnessState.connectedClients = [sid])) :=
  capture_engine_lifecycle serverWitnessState
    (ServerReachable.connect initServer "a" ServerReachable.init
      (by simp [initServer]))

end OpenTouch
